import Mathlib

/-!
Shallow embedding of the SilentSurge screening pipeline (a Next.js stock
screener). JavaScript numbers are modelled as rationals, the two-decimal
rounding idiom `Math.round(x * 100) / 100` as `round2`, and all effects
(HTTP fetches, the WhatsApp transport, the module-level alerted-ticker
set) as explicit inputs and threaded state.
-/

/-- JavaScript `Math.round(x * 100) / 100` (round half toward positive
infinity, keeping two decimals), as used by the route handler, the pivot
calculator's `round2` helper, and the delivery adapter. -/
def round2 (x : ℚ) : ℚ := ((Rat.floor (x * 100 + 1/2) : ℤ) : ℚ) / 100

/-- CRITERIA.MIN_PUMP_PERCENT from src/lib/constants.ts. -/
def MIN_PUMP_PERCENT : ℚ := 4

/-- CRITERIA.MAX_DELIVERY_PERCENT from src/lib/constants.ts. -/
def MAX_DELIVERY_PERCENT : ℚ := 30

/-- CRITERIA.MAX_R2_PROXIMITY from src/lib/constants.ts. -/
def MAX_R2_PROXIMITY : ℚ := 1

/-- CRITERIA.MIN_SECTOR_OUTPERFORMANCE from src/lib/constants.ts. -/
def MIN_SECTOR_OUTPERFORMANCE : ℚ := 2

/-- CRITERIA.MAX_MENTIONS from src/lib/constants.ts. -/
def MAX_MENTIONS : ℕ := 0

/-- The silence score computed in the route handler:
`Math.round((stock.changePercent / (1 + totalMentions)) * 100) / 100`. -/
def silenceScore (changePercent : ℚ) (totalMentions : ℕ) : ℚ :=
  round2 (changePercent / (1 + (totalMentions : ℚ)))

/-- The rounded sector-outperformance field of the route handler:
`Math.round((stock.changePercent - niftyChangePercent) * 100) / 100`. -/
def sectorOutperformance (changePercent niftyChangePercent : ℚ) : ℚ :=
  round2 (changePercent - niftyChangePercent)

/-- The `passesDelivery` criterion of the route handler:
`deliveryPercent >= 0 && deliveryPercent < CRITERIA.MAX_DELIVERY_PERCENT`. -/
def passesDelivery (deliveryPercent : ℚ) : Bool :=
  decide (0 ≤ deliveryPercent ∧ deliveryPercent < MAX_DELIVERY_PERCENT)

/-- The `passesSector` criterion of the route handler:
`sectorOutperformance >= CRITERIA.MIN_SECTOR_OUTPERFORMANCE`, where
`sectorOutperformance` is the rounded delta. -/
def passesSector (changePercent niftyChangePercent : ℚ) : Bool :=
  decide (MIN_SECTOR_OUTPERFORMANCE ≤
    sectorOutperformance changePercent niftyChangePercent)

/-- The `passesMentions` criterion of the route handler:
`totalMentions <= CRITERIA.MAX_MENTIONS`. -/
def passesMentions (totalMentions : ℕ) : Bool :=
  decide (totalMentions ≤ MAX_MENTIONS)

/-- Status classification of a screened stock (src/lib/constants.ts). -/
inductive StockStatus
  | alert
  | watch
  | filtered
deriving DecidableEq, Repr

/-- The status reduction in the route handler: `alert` when all four
criteria pass, `watch` when at least two of the four pass, `filtered`
otherwise. -/
def classify (pDelivery pR2 pSector pMentions : Bool) : StockStatus :=
  if pDelivery && pR2 && pSector && pMentions then StockStatus.alert
  else if 2 ≤ ([pDelivery, pR2, pSector, pMentions].filter (fun b => b)).length
    then StockStatus.watch
  else StockStatus.filtered

/-- The PivotData record of src/lib/pivots.ts. -/
structure PivotData where
  prevHigh : ℚ
  prevLow : ℚ
  prevClose : ℚ
  pivot : ℚ
  r1 : ℚ
  r2 : ℚ
  r2Proximity : ℚ
  nearR2 : Bool
deriving DecidableEq, Repr

/-- Core of `getPivotData` (src/lib/pivots.ts), given the previous day's
OHLC bar and the current price; the HTTP fetch and bar selection are
modelled by the caller supplying those values. The JavaScript truthiness
guard `!high || !low || !close` becomes an equality-with-zero test; the
returned fields are rounded to two decimals while `nearR2` is decided on
the unrounded proximity, exactly as in the source. -/
def getPivotData (high low close currentPrice : ℚ) : Option PivotData :=
  if high = 0 ∨ low = 0 ∨ close = 0 then none
  else
    let pivot := (high + low + close) / 3
    let r1 := 2 * pivot - low
    let r2 := pivot + (high - low)
    let r2Proximity := |currentPrice - r2| / r2 * 100
    let nearR2 := decide (r2Proximity ≤ 1)
    some ⟨round2 high, round2 low, round2 close, round2 pivot, round2 r1,
      round2 r2, round2 r2Proximity, nearR2⟩

/-- ASCII lowercasing of a character, modelling the mention regex's `i`
flag on the ASCII tickers used by the screener. -/
def charLower (c : Char) : Char :=
  if 'A' ≤ c ∧ c ≤ 'Z' then Char.ofNat (c.toNat + 32) else c

/-- The regex character class `\s` (ASCII whitespace). -/
def isSpaceChar (c : Char) : Bool :=
  c = ' ' || c = '\t' || c = '\n' || c = '\r' || c = '\x0b' || c = '\x0c'

/-- The leading delimiter class of the mention regex, `[\s$#]`. -/
def isLeadDelim (c : Char) : Bool := isSpaceChar c || c = '$' || c = '#'

/-- The lookahead class of the mention regex, `[\s,;.!?)\]]`. -/
def isTrailDelim (c : Char) : Bool :=
  isSpaceChar c || c = ',' || c = ';' || c = '.' || c = '!' || c = '?' ||
    c = ')' || c = ']'

/-- Case-insensitive comparison of the ticker against the first characters
of the text. -/
def ciStartsWith : List Char → List Char → Bool
  | [], _ => true
  | _ :: _, [] => false
  | a :: as, b :: bs => (charLower a == charLower b) && ciStartsWith as bs

/-- The regex lookahead after the ticker: end of text or a character of
the trailing class. -/
def trailOk (rest : List Char) : Bool :=
  match rest with
  | [] => true
  | c :: _ => isTrailDelim c

/-- The ticker matches at the current position: case-insensitive ticker
characters followed by the lookahead. -/
def matchHere (tk txt : List Char) : Bool :=
  ciStartsWith tk txt && trailOk (txt.drop tk.length)

/-- Regex search: the ticker may match at the current position when it is
the start of text or just after a leading delimiter (`canStart`), or
anywhere later after a leading delimiter character. -/
def searchFrom (tk : List Char) : Bool → List Char → Bool
  | canStart, [] => canStart && matchHere tk []
  | canStart, c :: rest =>
    (canStart && matchHere tk (c :: rest)) || searchFrom tk (isLeadDelim c) rest

/-- The ticker-matching regex shared by src/lib/reddit.ts and the
Telegram adapter: a case-insensitive occurrence of the ticker preceded by
start-of-text or one of `[\s$#]` and followed (lookahead, not consumed)
by end-of-text or one of `[\s,;.!?)\]]`. -/
def mentionMatches (ticker text : String) : Bool :=
  searchFrom ticker.data true text.data

/-- The spec's reading of the matcher, for refinement comparison: the
text splits as a prefix, a case-insensitive occurrence of the ticker, and
a remainder, where the occurrence is preceded by start-of-text or a
leading delimiter and followed by end-of-text or a trailing delimiter. -/
def specTokenMatch (ticker text : String) : Prop :=
  ∃ pre occ rest, text.data = pre ++ occ ++ rest ∧
    occ.map charLower = ticker.data.map charLower ∧
    (pre = [] ∨ ∃ p d, pre = p ++ [d] ∧ isLeadDelim d = true) ∧
    (rest = [] ∨ ∃ d r, rest = d :: r ∧ isTrailDelim d = true)

/-- The platform tag of a social mention (src/lib/constants.ts). -/
inductive Platform
  | twitter
  | reddit
  | telegram
deriving DecidableEq, Repr

/-- A social mention record (SocialMention in src/lib/constants.ts). -/
structure SocialMention where
  platform : Platform
  title : String
  url : String
  author : Option String
  timestamp : Option String
deriving DecidableEq, Repr

/-- A gainer row as produced by getTopGainers (src/lib/yahoo.ts). -/
structure GainerStock where
  symbol : String
  name : String
  price : ℚ
  change : ℚ
  changePercent : ℚ
  volume : ℚ
  marketCap : ℚ
deriving DecidableEq, Repr

/-- An enriched stock (StockData in src/lib/constants.ts). -/
structure StockData where
  symbol : String
  name : String
  price : ℚ
  change : ℚ
  changePercent : ℚ
  volume : ℚ
  marketCap : ℚ
  twitterMentions : ℕ
  redditMentions : ℕ
  telegramMentions : ℕ
  totalMentions : ℕ
  silenceScore : ℚ
  mentions : List SocialMention
  deliveryPercent : ℚ
  pivotR2 : ℚ
  r2Proximity : ℚ
  nearR2 : Bool
  sectorOutperformance : ℚ
  status : StockStatus
  alertSent : Bool
deriving DecidableEq, Repr

/-- The adapter results for one stock: the five signal fetches (which by
contract never raise) plus whether a WhatsApp transport send would report
success. -/
structure EnrichInputs where
  twitterResults : List SocialMention
  redditResults : List SocialMention
  telegramResults : List SocialMention
  deliveryPercent : ℚ
  pivotData : Option PivotData
  sendOk : Bool
deriving DecidableEq, Repr

/-- The response document of the screen route (ScreenResponse in
src/lib/constants.ts). -/
structure ScreenResponse where
  stocks : List StockData
  scannedAt : String
  totalScanned : ℕ
  alertsSent : ℕ
  niftyChangePercent : ℚ
  error : Option String
deriving DecidableEq, Repr

/-- tickerFromSymbol (src/lib/constants.ts): strips a trailing ".NS" or
".BO" suffix. -/
def tickerFromSymbol (symbol : String) : String :=
  if symbol.endsWith ".NS" || symbol.endsWith ".BO" then symbol.dropRight 3
  else symbol

/-- The alert-dispatch step of the route handler: skip when the ticker is
already in the session set; otherwise attempt the WhatsApp send and add
the ticker on reported success. Returns the new set, whether a transport
call was attempted, and whether the alert was dispatched. -/
def dispatchStep (alerted : List String) (ticker : String) (sendOk : Bool) :
    List String × Bool × Bool :=
  if ticker ∈ alerted then (alerted, false, false)
  else if sendOk then (ticker :: alerted, true, true)
  else (alerted, true, false)

/-- Folding the dispatch step over a sequence of alert invocations
(ticker, transport result), as happens across scan cycles in one process
lifetime. -/
def runTrace : List String → List (String × Bool) → List String
  | alerted, [] => alerted
  | alerted, e :: tr => runTrace (dispatchStep alerted e.1 e.2).1 tr

/-- The number of successful dispatches for a given ticker along a
sequence of alert invocations. -/
def dispatchCount : List String → List (String × Bool) → String → ℕ
  | _, [], _ => 0
  | alerted, e :: tr, t =>
    (if e.1 = t ∧ (dispatchStep alerted e.1 e.2).2.2 = true then 1 else 0) +
      dispatchCount (dispatchStep alerted e.1 e.2).1 tr t

/-- Total mention count across the three platforms, as computed in the
route handler. -/
def totalMentionsOf (i : EnrichInputs) : ℕ :=
  i.twitterResults.length + i.redditResults.length + i.telegramResults.length

/-- The status computed by the route handler for one stock from the four
criteria. -/
def enrichStatus (nifty : ℚ) (g : GainerStock) (i : EnrichInputs) :
    StockStatus :=
  classify (passesDelivery i.deliveryPercent)
    ((i.pivotData.map PivotData.nearR2).getD false)
    (passesSector g.changePercent nifty)
    (passesMentions (totalMentionsOf i))

/-- The enriched record returned by the route handler for one stock
(spread of the gainer fields plus the derived signals, the status and the
alertSent flag). -/
def enrichRecord (nifty : ℚ) (g : GainerStock) (i : EnrichInputs)
    (alertSent : Bool) : StockData :=
  ⟨g.symbol, g.name, g.price, g.change, g.changePercent, g.volume, g.marketCap,
    i.twitterResults.length, i.redditResults.length, i.telegramResults.length,
    totalMentionsOf i,
    silenceScore g.changePercent (totalMentionsOf i),
    i.twitterResults ++ i.redditResults ++ i.telegramResults,
    i.deliveryPercent,
    (i.pivotData.map PivotData.r2).getD 0,
    (i.pivotData.map PivotData.r2Proximity).getD (-1),
    (i.pivotData.map PivotData.nearR2).getD false,
    sectorOutperformance g.changePercent nifty,
    enrichStatus nifty g i,
    alertSent⟩

/-- Per-stock enrichment of the route handler, threading the session's
alerted-ticker set and the alertsSent counter: on an alert status the
dispatcher runs; otherwise the state is untouched and alertSent is
false. -/
def enrichStock (nifty : ℚ) (st : List String × ℕ) (g : GainerStock)
    (i : EnrichInputs) : (List String × ℕ) × StockData :=
  if enrichStatus nifty g i = StockStatus.alert then
    (((dispatchStep st.1 (tickerFromSymbol g.symbol) i.sendOk).1,
      st.2 + (if (dispatchStep st.1 (tickerFromSymbol g.symbol) i.sendOk).2.2 =
        true then 1 else 0)),
      enrichRecord nifty g i
        (dispatchStep st.1 (tickerFromSymbol g.symbol) i.sendOk).2.2)
  else (st, enrichRecord nifty g i false)

/-- Enrichment of the whole gainers list, threading the session state. -/
def enrichAll (nifty : ℚ) : (List String × ℕ) →
    List (GainerStock × EnrichInputs) → (List String × ℕ) × List StockData
  | st, [] => (st, [])
  | st, p :: rest =>
    ((enrichAll nifty (enrichStock nifty st p.1 p.2).1 rest).1,
      (enrichStock nifty st p.1 p.2).2 ::
        (enrichAll nifty (enrichStock nifty st p.1 p.2).1 rest).2)

/-- The statusPriority table of the route handler. -/
def statusPriority : StockStatus → ℕ
  | StockStatus.alert => 0
  | StockStatus.watch => 1
  | StockStatus.filtered => 2

/-- The route's sort comparator as a boolean order: a sorts no later than
b when a has strictly smaller status priority, or equal priority and a's
silence score is at least b's. -/
def stockLE (a b : StockData) : Bool :=
  decide (statusPriority a.status < statusPriority b.status ∨
    (statusPriority a.status = statusPriority b.status ∧
      b.silenceScore ≤ a.silenceScore))

/-- The final sort of the route handler. -/
def sortStocks (l : List StockData) : List StockData := l.mergeSort stockLE

/-- The claimed ordering between adjacent report entries: strictly higher
status priority first, or equal status with silence scores descending. -/
def stockOrdered (a b : StockData) : Prop :=
  statusPriority a.status < statusPriority b.status ∨
    (a.status = b.status ∧ b.silenceScore ≤ a.silenceScore)

/-- The GET handler of the screen route with its effects supplied as
inputs: `fetch` is the joint result of the gainers and benchmark fetches
(a rejection of either fails the whole Promise.all and is caught at the
handler boundary), each gainer is paired with its adapter results, `now`
is the scan timestamp, and `alerted` is the session's alerted-ticker set
on entry. Returns the response document and the updated set. -/
def runScreen (now : String)
    (fetch : Except String (List (GainerStock × EnrichInputs) × ℚ))
    (alerted : List String) : ScreenResponse × List String :=
  match fetch with
  | Except.error msg => (⟨[], now, 0, 0, 0, some msg⟩, alerted)
  | Except.ok (gainers, niftyChangePercent) =>
    if gainers.length = 0 then
      (⟨[], now, 0, 0, niftyChangePercent, none⟩, alerted)
    else
      (⟨sortStocks (enrichAll niftyChangePercent (alerted, 0) gainers).2, now,
        gainers.length,
        (enrichAll niftyChangePercent (alerted, 0) gainers).1.2,
        niftyChangePercent, none⟩,
        (enrichAll niftyChangePercent (alerted, 0) gainers).1.1)

/-- Rat.floor agrees with the floor of the FloorRing instance. -/
theorem rat_floor_eq_floor (x : ℚ) : Rat.floor x = ⌊x⌋ := by
  rw [Rat.floor_def', Rat.floor_def]

/-- Evaluation rule for round2 at a concrete argument: if the scaled and
shifted value lies in [k, k+1) then round2 x = k/100. -/
theorem round2_eq_of (x : ℚ) (k : ℤ) (h1 : (k : ℚ) ≤ x * 100 + 1/2)
    (h2 : x * 100 + 1/2 < (k : ℚ) + 1) : round2 x = (k : ℚ) / 100 := by
  unfold round2
  rw [rat_floor_eq_floor]
  have : ⌊x * 100 + 1/2⌋ = k := Int.floor_eq_iff.mpr ⟨h1, h2⟩
  rw [this]

/-- round2 is monotone (floor of a monotone affine map). -/
theorem round2_mono {x y : ℚ} (h : x ≤ y) : round2 x ≤ round2 y := by
  unfold round2
  rw [rat_floor_eq_floor, rat_floor_eq_floor]
  have h2 : ⌊x * 100 + 1/2⌋ ≤ ⌊y * 100 + 1/2⌋ :=
    Int.floor_mono (by linarith)
  have h3 : ((⌊x * 100 + 1/2⌋ : ℤ) : ℚ) ≤ ((⌊y * 100 + 1/2⌋ : ℤ) : ℚ) := by
    exact_mod_cast h2
  linarith

/-- C1: for every combination of the four criteria booleans, the
classifier returns `alert` iff all four are true, `watch` iff exactly two
or three are true, and `filtered` iff at most one is true (all 16
combinations). -/
theorem classifier_truth_table (d r s m : Bool) :
    (classify d r s m = StockStatus.alert ↔
      (d = true ∧ r = true ∧ s = true ∧ m = true)) ∧
    (classify d r s m = StockStatus.watch ↔
      (([d, r, s, m].filter (fun b => b)).length = 2 ∨
        ([d, r, s, m].filter (fun b => b)).length = 3)) ∧
    (classify d r s m = StockStatus.filtered ↔
      ([d, r, s, m].filter (fun b => b)).length ≤ 1) := by
  revert d r s m
  decide

/-- C3 counterexample: the rounded silence score does not strictly
decrease in the mention count; at changePercent 4 the scores for 100 and
101 mentions are both 0.04. -/
theorem silenceScore_strict_decrease_fails :
    silenceScore 4 101 = silenceScore 4 100 ∧
    ¬ silenceScore 4 101 < silenceScore 4 100 := by
  have e1 : silenceScore 4 101 = 1/25 := by
    unfold silenceScore
    rw [show (4 : ℚ) / (1 + ((101 : ℕ) : ℚ)) = 4/102 by norm_num]
    rw [round2_eq_of (4/102) 4 (by norm_num) (by norm_num)]
    norm_num
  have e2 : silenceScore 4 100 = 1/25 := by
    unfold silenceScore
    rw [show (4 : ℚ) / (1 + ((100 : ℕ) : ℚ)) = 4/101 by norm_num]
    rw [round2_eq_of (4/101) 4 (by norm_num) (by norm_num)]
    norm_num
  rw [e1, e2]
  simp

/-- C3 (amended): the denominator 1 + mentions is never zero; for a fixed
positive changePercent the unrounded ratio strictly decreases as the
mention count increases; and the rounded silence score is monotonically
non-increasing in the mention count for nonnegative changePercent. -/
theorem silenceScore_decreasing_amended :
    (∀ m : ℕ, (1 : ℚ) + (m : ℚ) ≠ 0) ∧
    (∀ c : ℚ, 0 < c → ∀ m n : ℕ, m < n →
      c / (1 + (n : ℚ)) < c / (1 + (m : ℚ))) ∧
    (∀ c : ℚ, 0 ≤ c → ∀ m n : ℕ, m ≤ n →
      silenceScore c n ≤ silenceScore c m) := by
  refine ⟨?_, ?_, ?_⟩
  · intro m
    positivity
  · intro c hc m n hmn
    have hm : (0 : ℚ) < 1 + (m : ℚ) := by positivity
    have hmn' : (1 : ℚ) + (m : ℚ) < 1 + (n : ℚ) := by
      have : (m : ℚ) < (n : ℚ) := by exact_mod_cast hmn
      linarith
    exact div_lt_div_of_pos_left hc hm hmn'
  · intro c hc m n hmn
    unfold silenceScore
    apply round2_mono
    have hm : (0 : ℚ) < 1 + (m : ℚ) := by positivity
    have hmn' : (1 : ℚ) + (m : ℚ) ≤ 1 + (n : ℚ) := by
      have : (m : ℚ) ≤ (n : ℚ) := by exact_mod_cast hmn
      linarith
    gcongr

/-- C3 witness: the amended theorem applied at changePercent 4 and
mention counts 2 ≤ 3. -/
theorem silenceScore_decreasing_amended_witness :
    silenceScore 4 3 ≤ silenceScore 4 2 :=
  silenceScore_decreasing_amended.2.2 4 (by norm_num) 2 3 (by norm_num)

/-- C4 counterexample: at changePercent 2 − 2^(−51) and benchmark 0 the
raw delta is strictly below 2, yet `passesSector` is true because the
code compares the rounded delta. -/
theorem passesSector_raw_delta_fails :
    passesSector (2 - 1/2251799813685248) 0 = true ∧
    ¬ (2 : ℚ) ≤ (2 - 1/2251799813685248 : ℚ) - 0 := by
  constructor
  · have hval : sectorOutperformance (2 - 1/2251799813685248) 0 = 2 := by
      unfold sectorOutperformance
      rw [round2_eq_of ((2 - 1/2251799813685248 : ℚ) - 0) 200 (by norm_num)
        (by norm_num)]
      norm_num
    unfold passesSector
    rw [hval]
    simp [MIN_SECTOR_OUTPERFORMANCE]
  · norm_num

/-- C4 (amended): `passesSector` is true iff the rounded two-decimal
delta `sectorOutperformance` is at least the 2-point threshold; any raw
delta ≥ 2 passes, and a passing stock's raw delta is at least 1.995. -/
theorem passesSector_rounded_spec (c n : ℚ) :
    (passesSector c n = true ↔
      MIN_SECTOR_OUTPERFORMANCE ≤ round2 (c - n)) ∧
    (MIN_SECTOR_OUTPERFORMANCE ≤ c - n → passesSector c n = true) ∧
    (passesSector c n = true → 2 - 1/200 ≤ c - n) := by
  have hiff : passesSector c n = true ↔
      MIN_SECTOR_OUTPERFORMANCE ≤ round2 (c - n) := by
    simp [passesSector, sectorOutperformance]
  refine ⟨hiff, ?_, ?_⟩
  · intro h
    apply hiff.mpr
    have h2 : round2 2 ≤ round2 (c - n) := round2_mono h
    have h3 : round2 2 = 2 := by
      rw [round2_eq_of 2 200 (by norm_num) (by norm_num)]
      norm_num
    rw [h3] at h2
    exact h2
  · intro h
    have h1 : MIN_SECTOR_OUTPERFORMANCE ≤ round2 (c - n) := hiff.mp h
    unfold MIN_SECTOR_OUTPERFORMANCE round2 at h1
    rw [rat_floor_eq_floor] at h1
    have h3 : ((⌊(c - n) * 100 + 1/2⌋ : ℤ) : ℚ) ≤ (c - n) * 100 + 1/2 :=
      Int.floor_le _
    linarith

/-- C4 witness: the amended theorem applied at changePercent 7 and
benchmark 4 (raw delta 3 ≥ 2). -/
theorem passesSector_rounded_spec_witness : passesSector 7 4 = true :=
  (passesSector_rounded_spec 7 4).2.1 (by norm_num [MIN_SECTOR_OUTPERFORMANCE])

/-- Evaluation rule for getPivotData: once each rounded field and the
nearR2 decision are computed, the returned record is determined. -/
theorem getPivotData_eval (high low close price ph pl pc pp pr1 pr2 pprox : ℚ)
    (nr : Bool)
    (hcond : ¬ (high = 0 ∨ low = 0 ∨ close = 0))
    (eh : round2 high = ph) (el : round2 low = pl) (ec : round2 close = pc)
    (ep : round2 ((high + low + close) / 3) = pp)
    (er1 : round2 (2 * ((high + low + close) / 3) - low) = pr1)
    (er2 : round2 ((high + low + close) / 3 + (high - low)) = pr2)
    (eprox : round2 (|price - ((high + low + close) / 3 + (high - low))| /
      ((high + low + close) / 3 + (high - low)) * 100) = pprox)
    (enr : decide (|price - ((high + low + close) / 3 + (high - low))| /
      ((high + low + close) / 3 + (high - low)) * 100 ≤ 1) = nr) :
    getPivotData high low close price =
      some ⟨ph, pl, pc, pp, pr1, pr2, pprox, nr⟩ := by
  subst eh el ec ep er1 er2 eprox enr
  unfold getPivotData
  rw [if_neg hcond]

/-- C5: with the previous day's high, low and close available and
non-zero, pivot computation uses pivot = (h+l+c)/3, r1 = 2·pivot − low,
r2 = pivot + (h − l), proximity = |price − r2| / r2 · 100, and
nearR2 ⇔ proximity ≤ 1, the returned record carrying the two-decimal
roundings of these quantities; for high 110, low 90, close 100 this gives
pivot 100, r1 110, r2 120, and reported proximity 0.83 (near) at price
121 and 8.33 (not near) at price 110. -/
theorem pivot_formulas_spec (high low close price : ℚ)
    (hh : high ≠ 0) (hl : low ≠ 0) (hc : close ≠ 0) :
    (∃ pd, getPivotData high low close price = some pd ∧
      pd.pivot = round2 ((high + low + close) / 3) ∧
      pd.r1 = round2 (2 * ((high + low + close) / 3) - low) ∧
      pd.r2 = round2 ((high + low + close) / 3 + (high - low)) ∧
      pd.r2Proximity = round2 (|price - ((high + low + close) / 3 + (high - low))| /
        ((high + low + close) / 3 + (high - low)) * 100) ∧
      (pd.nearR2 = true ↔
        |price - ((high + low + close) / 3 + (high - low))| /
          ((high + low + close) / 3 + (high - low)) * 100 ≤ 1)) ∧
    getPivotData 110 90 100 121 =
      some ⟨110, 90, 100, 100, 110, 120, 83/100, true⟩ ∧
    getPivotData 110 90 100 110 =
      some ⟨110, 90, 100, 100, 110, 120, 833/100, false⟩ := by
  refine ⟨?_, ?_, ?_⟩
  · have hcond : ¬ (high = 0 ∨ low = 0 ∨ close = 0) := by
      push_neg
      exact ⟨hh, hl, hc⟩
    unfold getPivotData
    rw [if_neg hcond]
    refine ⟨_, rfl, rfl, rfl, rfl, rfl, ?_⟩
    simp
  · apply getPivotData_eval
    · norm_num
    · rw [round2_eq_of 110 11000 (by norm_num) (by norm_num)]
      norm_num
    · rw [round2_eq_of 90 9000 (by norm_num) (by norm_num)]
      norm_num
    · rw [round2_eq_of 100 10000 (by norm_num) (by norm_num)]
      norm_num
    · rw [show ((110 : ℚ) + 90 + 100) / 3 = 100 by norm_num,
        round2_eq_of 100 10000 (by norm_num) (by norm_num)]
      norm_num
    · rw [show 2 * (((110 : ℚ) + 90 + 100) / 3) - 90 = 110 by norm_num,
        round2_eq_of 110 11000 (by norm_num) (by norm_num)]
      norm_num
    · rw [show ((110 : ℚ) + 90 + 100) / 3 + (110 - 90) = 120 by norm_num,
        round2_eq_of 120 12000 (by norm_num) (by norm_num)]
      norm_num
    · rw [show ((110 : ℚ) + 90 + 100) / 3 + (110 - 90) = 120 by norm_num,
        abs_of_nonneg (by norm_num : (0 : ℚ) ≤ 121 - 120),
        show ((121 : ℚ) - 120) / 120 * 100 = 5/6 by norm_num,
        round2_eq_of (5/6) 83 (by norm_num) (by norm_num)]
      norm_num
    · rw [show ((110 : ℚ) + 90 + 100) / 3 + (110 - 90) = 120 by norm_num,
        abs_of_nonneg (by norm_num : (0 : ℚ) ≤ 121 - 120)]
      simp only [decide_eq_true_eq]
      norm_num
  · apply getPivotData_eval
    · norm_num
    · rw [round2_eq_of 110 11000 (by norm_num) (by norm_num)]
      norm_num
    · rw [round2_eq_of 90 9000 (by norm_num) (by norm_num)]
      norm_num
    · rw [round2_eq_of 100 10000 (by norm_num) (by norm_num)]
      norm_num
    · rw [show ((110 : ℚ) + 90 + 100) / 3 = 100 by norm_num,
        round2_eq_of 100 10000 (by norm_num) (by norm_num)]
      norm_num
    · rw [show 2 * (((110 : ℚ) + 90 + 100) / 3) - 90 = 110 by norm_num,
        round2_eq_of 110 11000 (by norm_num) (by norm_num)]
      norm_num
    · rw [show ((110 : ℚ) + 90 + 100) / 3 + (110 - 90) = 120 by norm_num,
        round2_eq_of 120 12000 (by norm_num) (by norm_num)]
      norm_num
    · rw [show ((110 : ℚ) + 90 + 100) / 3 + (110 - 90) = 120 by norm_num,
        abs_of_nonpos (by norm_num : (110 : ℚ) - 120 ≤ 0),
        show -((110 : ℚ) - 120) / 120 * 100 = 25/3 by norm_num,
        round2_eq_of (25/3) 833 (by norm_num) (by norm_num)]
      norm_num
    · rw [show ((110 : ℚ) + 90 + 100) / 3 + (110 - 90) = 120 by norm_num,
        abs_of_nonpos (by norm_num : (110 : ℚ) - 120 ≤ 0)]
      simp only [decide_eq_false_iff_not]
      norm_num

/-- C5 witness: the formulas theorem applied at the spec's concrete bar
high 110, low 90, close 100 with price 121. -/
theorem pivot_formulas_spec_witness :
    getPivotData 110 90 100 121 =
      some ⟨110, 90, 100, 100, 110, 120, 83/100, true⟩ :=
  (pivot_formulas_spec 110 90 100 121 (by norm_num) (by norm_num)
    (by norm_num)).2.1

/-- C9: `getPivotData` decides `nearR2` on the unrounded proximity but
reports the rounded one, so at bar 110/90/100 and price 121.203 the raw
proximity 1.0025 lies strictly between 1 and 1.005, the reported
r2Proximity is exactly 1.00, and nearR2 is false. -/
theorem pivot_rounding_gap :
    getPivotData 110 90 100 (121203/1000) =
      some ⟨110, 90, 100, 100, 110, 120, 1, false⟩ ∧
    1 < |(121203/1000 : ℚ) - 120| / 120 * 100 ∧
    |(121203/1000 : ℚ) - 120| / 120 * 100 < 201/200 := by
  have habs : |(121203/1000 : ℚ) - 120| = 1203/1000 := by
    rw [abs_of_nonneg (by norm_num : (0 : ℚ) ≤ 121203/1000 - 120)]
    norm_num
  refine ⟨?_, by rw [habs]; norm_num, by rw [habs]; norm_num⟩
  apply getPivotData_eval
  · norm_num
  · rw [round2_eq_of 110 11000 (by norm_num) (by norm_num)]
    norm_num
  · rw [round2_eq_of 90 9000 (by norm_num) (by norm_num)]
    norm_num
  · rw [round2_eq_of 100 10000 (by norm_num) (by norm_num)]
    norm_num
  · rw [show ((110 : ℚ) + 90 + 100) / 3 = 100 by norm_num,
      round2_eq_of 100 10000 (by norm_num) (by norm_num)]
    norm_num
  · rw [show 2 * (((110 : ℚ) + 90 + 100) / 3) - 90 = 110 by norm_num,
      round2_eq_of 110 11000 (by norm_num) (by norm_num)]
    norm_num
  · rw [show ((110 : ℚ) + 90 + 100) / 3 + (110 - 90) = 120 by norm_num,
      round2_eq_of 120 12000 (by norm_num) (by norm_num)]
    norm_num
  · rw [show ((110 : ℚ) + 90 + 100) / 3 + (110 - 90) = 120 by norm_num,
      abs_of_nonneg (by norm_num : (0 : ℚ) ≤ 121203/1000 - 120),
      show ((121203/1000 : ℚ) - 120) / 120 * 100 = 401/400 by norm_num,
      round2_eq_of (401/400) 100 (by norm_num) (by norm_num)]
    norm_num
  · rw [show ((110 : ℚ) + 90 + 100) / 3 + (110 - 90) = 120 by norm_num,
      abs_of_nonneg (by norm_num : (0 : ℚ) ≤ 121203/1000 - 120)]
    simp only [decide_eq_false_iff_not]
    norm_num

/-- Characterization of the case-insensitive prefix test. -/
theorem ciStartsWith_iff (tk : List Char) : ∀ txt : List Char,
    ciStartsWith tk txt = true ↔
      ∃ occ rest, txt = occ ++ rest ∧ occ.map charLower = tk.map charLower := by
  induction tk with
  | nil =>
    intro txt
    constructor
    · intro _
      exact ⟨[], txt, rfl, rfl⟩
    · intro _
      rfl
  | cons a as ih =>
    intro txt
    cases txt with
    | nil =>
      constructor
      · intro h
        simp [ciStartsWith] at h
      · rintro ⟨occ, rest, heq, hm⟩
        cases occ with
        | nil => simp at hm
        | cons o occ' => simp at heq
    | cons b bs =>
      simp only [ciStartsWith, Bool.and_eq_true, beq_iff_eq]
      constructor
      · rintro ⟨hab, h⟩
        obtain ⟨occ, rest, rfl, hm⟩ := (ih bs).mp h
        exact ⟨b :: occ, rest, rfl, by simp [hm, hab]⟩
      · rintro ⟨occ, rest, heq, hm⟩
        cases occ with
        | nil => simp at hm
        | cons o occ' =>
          simp only [List.cons_append, List.cons.injEq] at heq
          obtain ⟨rfl, rfl⟩ := heq
          simp only [List.map_cons, List.cons.injEq] at hm
          exact ⟨hm.1.symm, (ih (occ' ++ rest)).mpr ⟨occ', rest, rfl, hm.2⟩⟩

/-- Characterization of the lookahead test. -/
theorem trailOk_iff (rest : List Char) :
    trailOk rest = true ↔
      (rest = [] ∨ ∃ d r, rest = d :: r ∧ isTrailDelim d = true) := by
  cases rest with
  | nil => simp [trailOk]
  | cons c r =>
    simp only [trailOk]
    constructor
    · intro h
      exact Or.inr ⟨c, r, rfl, h⟩
    · rintro (h | ⟨d, r', heq, hd⟩)
      · simp at h
      · simp only [List.cons.injEq] at heq
        obtain ⟨rfl, rfl⟩ := heq
        exact hd

/-- Characterization of a match at the current position. -/
theorem matchHere_iff (tk txt : List Char) :
    matchHere tk txt = true ↔
      ∃ occ rest, txt = occ ++ rest ∧ occ.map charLower = tk.map charLower ∧
        (rest = [] ∨ ∃ d r, rest = d :: r ∧ isTrailDelim d = true) := by
  constructor
  · intro h
    rw [matchHere, Bool.and_eq_true] at h
    obtain ⟨h1, h2⟩ := h
    obtain ⟨occ, rest, rfl, hm⟩ := (ciStartsWith_iff tk _).mp h1
    have hlen : occ.length = tk.length := by
      simpa using congrArg List.length hm
    have hdrop : (occ ++ rest).drop tk.length = rest := by
      rw [← hlen]
      simp
    rw [hdrop] at h2
    exact ⟨occ, rest, rfl, hm, (trailOk_iff rest).mp h2⟩
  · rintro ⟨occ, rest, rfl, hm, hr⟩
    rw [matchHere, Bool.and_eq_true]
    refine ⟨(ciStartsWith_iff tk _).mpr ⟨occ, rest, rfl, hm⟩, ?_⟩
    have hlen : occ.length = tk.length := by
      simpa using congrArg List.length hm
    have hdrop : (occ ++ rest).drop tk.length = rest := by
      rw [← hlen]
      simp
    rw [hdrop]
    exact (trailOk_iff rest).mpr hr

/-- Characterization of the regex search over all positions. -/
theorem searchFrom_iff (tk : List Char) : ∀ (txt : List Char) (canStart : Bool),
    searchFrom tk canStart txt = true ↔
      (canStart = true ∧ matchHere tk txt = true) ∨
      (∃ pre d rest, txt = pre ++ d :: rest ∧ isLeadDelim d = true ∧
        matchHere tk rest = true) := by
  intro txt
  induction txt with
  | nil =>
    intro canStart
    simp only [searchFrom, Bool.and_eq_true]
    constructor
    · rintro ⟨hc, hm⟩
      exact Or.inl ⟨hc, hm⟩
    · rintro (⟨hc, hm⟩ | ⟨pre, d, rest, heq, _, _⟩)
      · exact ⟨hc, hm⟩
      · simp at heq
  | cons c rest' ih =>
    intro canStart
    simp only [searchFrom, Bool.or_eq_true, Bool.and_eq_true]
    rw [ih (isLeadDelim c)]
    constructor
    · rintro (⟨hc, hm⟩ | (⟨hd, hm⟩ | ⟨pre, d, r, heq, hd, hm⟩))
      · exact Or.inl ⟨hc, hm⟩
      · exact Or.inr ⟨[], c, rest', rfl, hd, hm⟩
      · exact Or.inr ⟨c :: pre, d, r, by rw [heq]; rfl, hd, hm⟩
    · rintro (⟨hc, hm⟩ | ⟨pre, d, r, heq, hd, hm⟩)
      · exact Or.inl ⟨hc, hm⟩
      · cases pre with
        | nil =>
          simp only [List.nil_append, List.cons.injEq] at heq
          obtain ⟨rfl, rfl⟩ := heq
          exact Or.inr (Or.inl ⟨hd, hm⟩)
        | cons p ps =>
          simp only [List.cons_append, List.cons.injEq] at heq
          obtain ⟨rfl, rfl⟩ := heq
          exact Or.inr (Or.inr ⟨ps, d, r, rfl, hd, hm⟩)

/-- C8: the mention-matching regex of the Reddit and Telegram adapters
matches a ticker exactly as a case-insensitive token preceded by
start-of-text, whitespace, a dollar sign or a hash and followed by
end-of-text, whitespace or listed punctuation; in particular for ticker
TCS the text with a dollar-prefixed TCS matches and the text PETROLTCS
does not. -/
theorem mention_token_spec :
    (∀ ticker text, mentionMatches ticker text = true ↔
      specTokenMatch ticker text) ∧
    mentionMatches "TCS" "I like $TCS today" = true ∧
    mentionMatches "TCS" "PETROLTCS" = false := by
  refine ⟨?_, by decide, by decide⟩
  intro ticker text
  rw [mentionMatches, searchFrom_iff, specTokenMatch]
  constructor
  · rintro (⟨_, hm⟩ | ⟨pre, d, restAll, hdata, hd, hm⟩)
    · obtain ⟨occ, rest, hsplit, hmap, htrail⟩ := (matchHere_iff _ _).mp hm
      exact ⟨[], occ, rest, by simpa using hsplit, hmap, Or.inl rfl, htrail⟩
    · obtain ⟨occ, rest, hsplit, hmap, htrail⟩ := (matchHere_iff _ _).mp hm
      refine ⟨pre ++ [d], occ, rest, ?_, hmap, Or.inr ⟨pre, d, rfl, hd⟩, htrail⟩
      rw [hdata, hsplit]
      simp
  · rintro ⟨pre, occ, rest, hdata, hmap, (rfl | ⟨p, d, rfl, hd⟩), htrail⟩
    · exact Or.inl ⟨rfl, (matchHere_iff _ _).mpr
        ⟨occ, rest, by simpa using hdata, hmap, htrail⟩⟩
    · refine Or.inr ⟨p, d, occ ++ rest, ?_, hd, (matchHere_iff _ _).mpr
        ⟨occ, rest, rfl, hmap, htrail⟩⟩
      rw [hdata]
      simp

/-- C8 witness: the characterization applied at ticker TCS and the
dollar-prefixed sample text. -/
theorem mention_token_spec_witness :
    mentionMatches "TCS" "I like $TCS today" = true :=
  mention_token_spec.2.1

/-- Membership in the set after a dispatch step. -/
theorem dispatchStep_mem_iff (al : List String) (t : String) (s : Bool)
    (u : String) :
    u ∈ (dispatchStep al t s).1 ↔
      u ∈ al ∨ (u = t ∧ (dispatchStep al t s).2.2 = true) := by
  unfold dispatchStep
  split_ifs with h1 h2 <;> simp [List.mem_cons, or_comm]

/-- The step preserves existing members. -/
theorem dispatchStep_mem_of_mem {al : List String} {t u : String} {s : Bool}
    (h : u ∈ al) : u ∈ (dispatchStep al t s).1 :=
  (dispatchStep_mem_iff al t s u).mpr (Or.inl h)

/-- A transport call is attempted iff the ticker is not yet in the set. -/
theorem dispatchStep_attempt_iff (al : List String) (t : String) (s : Bool) :
    (dispatchStep al t s).2.1 = true ↔ t ∉ al := by
  unfold dispatchStep
  split_ifs with h1 h2
  · simp [h1]
  · simp [h1]
  · simp [h1]

/-- A dispatch happens iff the ticker was absent and the send succeeded. -/
theorem dispatchStep_dispatched_iff (al : List String) (t : String) (s : Bool) :
    (dispatchStep al t s).2.2 = true ↔ (t ∉ al ∧ s = true) := by
  unfold dispatchStep
  split_ifs with h1 h2
  · simp [h1]
  · simp [h1, h2]
  · simp [h1, h2]

/-- A step for a ticker already in the set does nothing. -/
theorem dispatchStep_of_mem {al : List String} {t : String} (s : Bool)
    (h : t ∈ al) : dispatchStep al t s = (al, false, false) := by
  unfold dispatchStep
  rw [if_pos h]

/-- A ticker already in the set is never dispatched along any trace. -/
theorem dispatchCount_of_mem :
    ∀ (tr : List (String × Bool)) (al : List String) (t : String),
      t ∈ al → dispatchCount al tr t = 0 := by
  intro tr
  induction tr with
  | nil =>
    intro al t _
    rfl
  | cons e tr ih =>
    intro al t ht
    simp only [dispatchCount]
    rw [if_neg, ih _ t (dispatchStep_mem_of_mem ht)]
    rintro ⟨rfl, hd⟩
    exact ((dispatchStep_dispatched_iff al e.1 e.2).mp hd).1 ht

/-- At most one successful dispatch per ticker along any trace. -/
theorem dispatchCount_le_one :
    ∀ (tr : List (String × Bool)) (al : List String) (t : String),
      dispatchCount al tr t ≤ 1 := by
  intro tr
  induction tr with
  | nil =>
    intro al t
    exact Nat.zero_le 1
  | cons e tr ih =>
    intro al t
    simp only [dispatchCount]
    by_cases hc : e.1 = t ∧ (dispatchStep al e.1 e.2).2.2 = true
    · obtain ⟨rfl, hd⟩ := hc
      have hmem : e.1 ∈ (dispatchStep al e.1 e.2).1 :=
        (dispatchStep_mem_iff al e.1 e.2 e.1).mpr (Or.inr ⟨rfl, hd⟩)
      rw [if_pos ⟨rfl, hd⟩, dispatchCount_of_mem tr _ _ hmem]
    · rw [if_neg hc]
      simpa using ih (dispatchStep al e.1 e.2).1 t

/-- C2: the dispatcher attempts a transport send only for tickers not in
the alerted set, adds a ticker exactly when the send reports success,
never removes entries (also across whole scan cycles), dispatches at most
once per ticker along any sequence of invocations, and after a successful
send a second invocation for the same ticker makes no transport call and
reports not dispatched. -/
theorem dispatcher_once_per_ticker :
    (∀ (al : List String) (t : String) (s : Bool),
      ((dispatchStep al t s).2.1 = true ↔ t ∉ al) ∧
      ((dispatchStep al t s).2.2 = true ↔ (t ∉ al ∧ s = true)) ∧
      (∀ u, u ∈ (dispatchStep al t s).1 ↔
        u ∈ al ∨ (u = t ∧ (dispatchStep al t s).2.2 = true))) ∧
    (∀ (al : List String) (tr : List (String × Bool)) (t : String),
      dispatchCount al tr t ≤ 1) ∧
    (∀ (al : List String) (t : String) (s2 : Bool), t ∉ al →
      (dispatchStep al t true).2.2 = true ∧
      dispatchStep (dispatchStep al t true).1 t s2 =
        ((dispatchStep al t true).1, false, false)) := by
  refine ⟨?_, ?_, ?_⟩
  · intro al t s
    exact ⟨dispatchStep_attempt_iff al t s, dispatchStep_dispatched_iff al t s,
      dispatchStep_mem_iff al t s⟩
  · intro al tr t
    exact dispatchCount_le_one tr al t
  · intro al t s2 h
    have hd : (dispatchStep al t true).2.2 = true :=
      (dispatchStep_dispatched_iff al t true).mpr ⟨h, rfl⟩
    have hmem : t ∈ (dispatchStep al t true).1 :=
      (dispatchStep_mem_iff al t true t).mpr (Or.inr ⟨rfl, hd⟩)
    exact ⟨hd, dispatchStep_of_mem s2 hmem⟩

/-- C2 witness: the dispatcher applied with an empty set and ticker TCS;
the first successful send dispatches and the second invocation is a
no-op. -/
theorem dispatcher_once_per_ticker_witness :
    (dispatchStep ([] : List String) "TCS" true).2.2 = true ∧
    dispatchStep (dispatchStep ([] : List String) "TCS" true).1 "TCS" true =
      ((dispatchStep ([] : List String) "TCS" true).1, false, false) :=
  dispatcher_once_per_ticker.2.2 [] "TCS" true (by simp)

/-- statusPriority is injective on the three statuses. -/
theorem statusPriority_inj {x y : StockStatus}
    (h : statusPriority x = statusPriority y) : x = y := by
  revert h
  cases x <;> cases y <;> decide

/-- The sort comparator is transitive. -/
theorem stockLE_trans (a b c : StockData) (hab : stockLE a b = true)
    (hbc : stockLE b c = true) : stockLE a c = true := by
  simp only [stockLE, decide_eq_true_eq] at hab hbc ⊢
  rcases hab with h1 | ⟨h1, h1s⟩ <;> rcases hbc with h2 | ⟨h2, h2s⟩
  · exact Or.inl (h1.trans h2)
  · exact Or.inl (by rw [← h2]; exact h1)
  · exact Or.inl (by rw [h1]; exact h2)
  · exact Or.inr ⟨h1.trans h2, h2s.trans h1s⟩

/-- The sort comparator is total. -/
theorem stockLE_total (a b : StockData) : stockLE a b || stockLE b a := by
  simp only [stockLE, Bool.or_eq_true, decide_eq_true_eq]
  rcases lt_trichotomy (statusPriority a.status) (statusPriority b.status)
    with h | h | h
  · exact Or.inl (Or.inl h)
  · rcases le_total b.silenceScore a.silenceScore with hs | hs
    · exact Or.inl (Or.inr ⟨h, hs⟩)
    · exact Or.inr (Or.inr ⟨h.symm, hs⟩)
  · exact Or.inr (Or.inl h)

/-- The comparator implies the claimed adjacent ordering. -/
theorem stockLE_imp (a b : StockData) (h : stockLE a b = true) :
    stockOrdered a b := by
  simp only [stockLE, decide_eq_true_eq] at h
  rcases h with h | ⟨h, hs⟩
  · exact Or.inl h
  · exact Or.inr ⟨statusPriority_inj h, hs⟩

/-- The sorted list is a chain for the claimed ordering. -/
theorem sortStocks_chain' (l : List StockData) :
    List.Chain' stockOrdered (sortStocks l) := by
  have hp : (l.mergeSort stockLE).Pairwise (fun a b => stockLE a b = true) :=
    List.sorted_mergeSort stockLE_trans stockLE_total l
  exact (hp.imp (fun h => stockLE_imp _ _ h)).chain'

/-- C6: in every report the stock list is ordered with primary key status
priority (alert before watch before filtered) and secondary key silence
score descending: each adjacent pair either strictly drops in status
priority or shares a status with non-increasing silence scores. -/
theorem report_order_spec (now : String)
    (fetch : Except String (List (GainerStock × EnrichInputs) × ℚ))
    (alerted : List String) :
    List.Chain' stockOrdered ((runScreen now fetch alerted).1.stocks) := by
  rcases fetch with msg | ⟨gainers, nifty⟩
  · simp [runScreen]
  · by_cases hg : gainers.length = 0
    · simp [runScreen, hg]
    · simp only [runScreen]
      rw [if_neg hg]
      exact sortStocks_chain' _

/-- C7: a whole-cycle failure is caught at the orchestrator boundary and
reported as a well-formed document with an empty stock list, zero counts,
a zero benchmark and the error message, leaving the alerted set
untouched. -/
theorem report_error_spec (now msg : String) (alerted : List String) :
    (runScreen now (Except.error msg) alerted).1.stocks = [] ∧
    (runScreen now (Except.error msg) alerted).1.totalScanned = 0 ∧
    (runScreen now (Except.error msg) alerted).1.alertsSent = 0 ∧
    (runScreen now (Except.error msg) alerted).1.niftyChangePercent = 0 ∧
    (runScreen now (Except.error msg) alerted).1.error = some msg ∧
    (runScreen now (Except.error msg) alerted).1.scannedAt = now ∧
    (runScreen now (Except.error msg) alerted).2 = alerted :=
  ⟨rfl, rfl, rfl, rfl, rfl, rfl, rfl⟩

/-- Per-stock enrichment: the counter increments exactly on a dispatched
alert, only alert-status stocks carry alertSent, and the alerted set only
grows. -/
theorem enrichStock_counter (nifty : ℚ) (st : List String × ℕ)
    (g : GainerStock) (i : EnrichInputs) :
    (enrichStock nifty st g i).1.2 =
      st.2 + (if (enrichStock nifty st g i).2.alertSent = true then 1 else 0) ∧
    ((enrichStock nifty st g i).2.alertSent = true →
      (enrichStock nifty st g i).2.status = StockStatus.alert) ∧
    (∀ u, u ∈ st.1 → u ∈ (enrichStock nifty st g i).1.1) := by
  by_cases h : enrichStatus nifty g i = StockStatus.alert
  · unfold enrichStock
    rw [if_pos h]
    refine ⟨rfl, ?_, ?_⟩
    · intro _
      exact h
    · intro u hu
      exact dispatchStep_mem_of_mem hu
  · unfold enrichStock
    rw [if_neg h]
    refine ⟨?_, ?_, fun u hu => hu⟩
    · simp [enrichRecord]
    · intro hu
      simp [enrichRecord] at hu

/-- Whole-list enrichment: the counter equals the number of dispatched
alerts produced, one output per gainer, alertSent implies alert status,
and the alerted set only grows. -/
theorem enrichAll_spec (nifty : ℚ) :
    ∀ (l : List (GainerStock × EnrichInputs)) (st : List String × ℕ),
      (enrichAll nifty st l).1.2 =
        st.2 + ((enrichAll nifty st l).2.filter (fun s => s.alertSent)).length ∧
      (enrichAll nifty st l).2.length = l.length ∧
      (∀ s ∈ (enrichAll nifty st l).2, s.alertSent = true →
        s.status = StockStatus.alert) ∧
      (∀ u ∈ st.1, u ∈ (enrichAll nifty st l).1.1) := by
  intro l
  induction l with
  | nil =>
    intro st
    refine ⟨by simp [enrichAll], by simp [enrichAll], ?_, ?_⟩
    · intro s hs
      simp [enrichAll] at hs
    · intro u hu
      simpa [enrichAll] using hu
  | cons p rest ih =>
    intro st
    obtain ⟨ih1, ih2, ih3, ih4⟩ := ih (enrichStock nifty st p.1 p.2).1
    obtain ⟨hc, hstat, hmono⟩ := enrichStock_counter nifty st p.1 p.2
    refine ⟨?_, ?_, ?_, ?_⟩
    · simp only [enrichAll, List.filter_cons]
      rw [ih1, hc]
      by_cases ha : (enrichStock nifty st p.1 p.2).2.alertSent = true
      · rw [if_pos ha, if_pos ha]
        simp only [List.length_cons]
        omega
      · rw [if_neg ha, if_neg ha]
        omega
    · simp only [enrichAll, List.length_cons, ih2]
    · intro s hs halert
      simp only [enrichAll] at hs
      rcases List.mem_cons.mp hs with rfl | hs'
      · exact hstat halert
      · exact ih3 s hs' halert
    · intro u hu
      simp only [enrichAll]
      exact ih4 u (hmono u hu)

/-- C10: in every report the alertsSent count equals the number of stocks
with alertSent true, every such stock has alert status, and totalScanned
equals the length of the stock list. -/
theorem report_counts_spec (now : String)
    (fetch : Except String (List (GainerStock × EnrichInputs) × ℚ))
    (alerted : List String) :
    (runScreen now fetch alerted).1.alertsSent =
      (((runScreen now fetch alerted).1.stocks).filter
        (fun s => s.alertSent)).length ∧
    (∀ s ∈ (runScreen now fetch alerted).1.stocks, s.alertSent = true →
      s.status = StockStatus.alert) ∧
    (runScreen now fetch alerted).1.totalScanned =
      ((runScreen now fetch alerted).1.stocks).length := by
  rcases fetch with msg | ⟨gainers, nifty⟩
  · refine ⟨by simp [runScreen], ?_, by simp [runScreen]⟩
    intro s hs
    simp [runScreen] at hs
  · by_cases hg : gainers.length = 0
    · refine ⟨by simp [runScreen, hg], ?_, by simp [runScreen, hg]⟩
      intro s hs
      simp [runScreen, hg] at hs
    · obtain ⟨h1, h2, h3, _⟩ := enrichAll_spec nifty gainers (alerted, 0)
      have hperm : List.Perm (sortStocks (enrichAll nifty (alerted, 0) gainers).2)
          (enrichAll nifty (alerted, 0) gainers).2 :=
        List.mergeSort_perm _ _
      refine ⟨?_, ?_, ?_⟩
      · simp only [runScreen]
        rw [if_neg hg]
        dsimp only
        rw [(hperm.filter (fun s => s.alertSent)).length_eq, h1]
        omega
      · intro s hs halert
        simp only [runScreen] at hs
        rw [if_neg hg] at hs
        dsimp only at hs
        simp only [sortStocks, List.mem_mergeSort] at hs
        exact h3 s hs halert
      · simp only [runScreen]
        rw [if_neg hg]
        dsimp only
        simp only [sortStocks, List.length_mergeSort, h2]

/-- C10 witness: the invariants at a concrete one-stock scan. -/
theorem report_counts_spec_witness :
    (runScreen "t" (Except.ok ([(⟨"TCS.NS", "TCS", 100, 5, 5, 0, 0⟩,
        ⟨[], [], [], 20, none, true⟩)], 1)) []).1.totalScanned =
      ((runScreen "t" (Except.ok ([(⟨"TCS.NS", "TCS", 100, 5, 5, 0, 0⟩,
        ⟨[], [], [], 20, none, true⟩)], 1)) []).1.stocks).length :=
  (report_counts_spec "t" _ []).2.2

/-- C1 witness: the truth table applied at all four criteria true. -/
theorem classifier_truth_table_witness :
    classify true true true true = StockStatus.alert :=
  (classifier_truth_table true true true true).1.mpr ⟨rfl, rfl, rfl, rfl⟩

/-- C6 witness: the ordering theorem applied at a concrete scan. -/
theorem report_order_spec_witness :
    List.Chain' stockOrdered ((runScreen "t" (Except.error "e") []).1.stocks) :=
  report_order_spec "t" (Except.error "e") []

/-- C7 witness: the error report carries the message. -/
theorem report_error_spec_witness :
    (runScreen "t" (Except.error "boom") []).1.error = some "boom" :=
  (report_error_spec "t" "boom" []).2.2.2.2.1
